import Mathlib

/-!
Shallow embedding of mt_lintocirc (src/lib.rs, src/main.rs): a tool that
rewrites SAM alignment records mapped against a doubled circular reference
back onto a single linear copy, splitting records that cross the join.

Bytes are modelled as Nat, byte strings as List Nat, positions (noodles
Position, a NonZeroUsize) as Nat inside Option, and Rust panics / asserts
as Except errors.
-/

namespace Mt

/-- CIGAR operation kinds (noodles sam record cigar op Kind). -/
inductive Kind where
  | Match
  | Insertion
  | Deletion
  | Skip
  | SoftClip
  | HardClip
  | Pad
  | SequenceMatch
  | SequenceMismatch
  deriving DecidableEq, Repr

/-- Kind::consumes_reference (M, D, N, =, X advance the reference). -/
def Kind.consumes_reference : Kind → Bool
  | .Match => true
  | .Deletion => true
  | .Skip => true
  | .SequenceMatch => true
  | .SequenceMismatch => true
  | _ => false

/-- Kind::consumes_read (M, I, S, =, X advance the read). -/
def Kind.consumes_read : Kind → Bool
  | .Match => true
  | .Insertion => true
  | .SoftClip => true
  | .SequenceMatch => true
  | .SequenceMismatch => true
  | _ => false

/-- A CIGAR operation: kind plus length (noodles Op). -/
structure Op where
  kind : Kind
  len : Nat
  deriving DecidableEq, Repr

/-- The fields of an alignment record that convert_read reads or writes.
`name` is `Option` because noodles `Record::name` returns an `Option`;
`alignment_start` is a 1-based position (noodles Position = NonZeroUsize,
absent for unmapped records). -/
structure SamRecord where
  name : Option (List Nat)
  alignment_start : Option Nat
  cigar : List Op
  sequence : List Nat
  quality_scores : List Nat
  is_secondary : Bool
  deriving DecidableEq, Repr

/-- The return type of convert_read (enum SplitType in lib.rs). -/
inductive SplitType where
  | Unchanged
  | Modified (read : SamRecord)
  | Split (left right : SamRecord)
  deriving DecidableEq, Repr

/-- The panic / assert sites of the source, one constructor per site:
`unknownReadName` = `record.name().expect("UNKNOWN read name!")`;
`invalidUtf8Name` = `std::str::from_utf8(name).unwrap()`;
`qualityScoresExist` and `notSecondaryAlignment` = the two asserts guarding
the empty-sequence case; the two `splitOutOfBounds` errors = the panics of
`Vec::split_off` when the index exceeds the length; `zeroRefLen` =
`NonZeroUsize::new(reflen).unwrap()`. -/
inductive ConvErr where
  | unknownReadName
  | invalidUtf8Name
  | qualityScoresExist
  | notSecondaryAlignment
  | seqSplitOutOfBounds
  | qualSplitOutOfBounds
  | zeroRefLen
  deriving DecidableEq, Repr

/-- `Position::new` of noodles: positions are nonzero, so 0 gives `none`. -/
def position_new (n : Nat) : Option Nat :=
  if n = 0 then none else some n

/-- Whether a continuation byte is in 0x80..0xBF. -/
def utf8ContOk (b : Nat) : Bool :=
  decide (0x80 ≤ b) && decide (b ≤ 0xBF)

/-- Validity of a byte string as UTF-8, the check performed by
`std::str::from_utf8` (overlong encodings, surrogates and values above
U+10FFFF are rejected, per the Rust standard library). -/
def isValidUtf8 : List Nat → Bool
  | [] => true
  | b :: rest =>
    if b ≤ 0x7F then isValidUtf8 rest
    else if 0xC2 ≤ b && b ≤ 0xDF then
      match rest with
      | b1 :: r => utf8ContOk b1 && isValidUtf8 r
      | [] => false
    else if b = 0xE0 then
      match rest with
      | b1 :: b2 :: r =>
        (decide (0xA0 ≤ b1) && decide (b1 ≤ 0xBF)) && utf8ContOk b2 && isValidUtf8 r
      | _ => false
    else if (0xE1 ≤ b && b ≤ 0xEC) || b = 0xEE || b = 0xEF then
      match rest with
      | b1 :: b2 :: r => utf8ContOk b1 && utf8ContOk b2 && isValidUtf8 r
      | _ => false
    else if b = 0xED then
      match rest with
      | b1 :: b2 :: r =>
        (decide (0x80 ≤ b1) && decide (b1 ≤ 0x9F)) && utf8ContOk b2 && isValidUtf8 r
      | _ => false
    else if b = 0xF0 then
      match rest with
      | b1 :: b2 :: b3 :: r =>
        (decide (0x90 ≤ b1) && decide (b1 ≤ 0xBF)) && utf8ContOk b2 && utf8ContOk b3 &&
          isValidUtf8 r
      | _ => false
    else if 0xF1 ≤ b && b ≤ 0xF3 then
      match rest with
      | b1 :: b2 :: b3 :: r => utf8ContOk b1 && utf8ContOk b2 && utf8ContOk b3 && isValidUtf8 r
      | _ => false
    else if b = 0xF4 then
      match rest with
      | b1 :: b2 :: b3 :: r =>
        (decide (0x80 ≤ b1) && decide (b1 ≤ 0x8F)) && utf8ContOk b2 && utf8ContOk b3 &&
          isValidUtf8 r
      | _ => false
    else false

/-- The mutable state of the cigar loop in convert_read at the moment the
loop ends: the left cigar built so far, `sequence_idx`, `remaining_len`,
`curr_oper_kind`, and the operations not yet consumed (the rest of
`opiter` after a `break`, empty if the loop ran to completion). -/
structure WalkResult where
  left_cigar : List Op
  sequence_idx : Nat
  remaining_len : Nat
  curr_oper_kind : Kind
  suffix : List Op
  deriving DecidableEq, Repr

/-- One non-breaking iteration of the cigar loop: the operation is pushed
onto the left cigar and, if it consumes the read, advances `sequence_idx`. -/
def walkStep (oper : Op) (w : WalkResult) : WalkResult :=
  { w with
    left_cigar := oper :: w.left_cigar
    sequence_idx := (if oper.kind.consumes_read then oper.len else 0) + w.sequence_idx }

/-- The cigar loop of convert_read (lines 140-175 of lib.rs), written as a
recursion over the operation list with the running reference position as
the first argument.  On the straddling operation the loop breaks, keeping
the truncated operation on the left and recording the remainder. -/
def walk (reflen : Nat) : Nat → List Op → WalkResult
  | _, [] => ⟨[], 0, 0, Kind.Skip, []⟩
  | left_ref_len, oper :: rest =>
    if oper.kind.consumes_reference = true then
      if reflen < left_ref_len + oper.len then
        let curr_oper_len := reflen - left_ref_len
        { left_cigar := [⟨oper.kind, curr_oper_len⟩]
          sequence_idx := if oper.kind.consumes_read then curr_oper_len else 0
          remaining_len := oper.len - curr_oper_len
          curr_oper_kind := oper.kind
          suffix := rest }
      else
        walkStep oper (walk reflen (left_ref_len + oper.len) rest)
    else
      walkStep oper (walk reflen left_ref_len rest)

/-- The right cigar built after the loop (lines 213-221): the remaining
part of the straddling operation, if any, followed by the untouched
suffix. -/
def rightCigarOf (w : WalkResult) : List Op :=
  (if 0 < w.remaining_len then [⟨w.curr_oper_kind, w.remaining_len⟩] else []) ++ w.suffix

/-- The payload partition of convert_read (lines 180-209): the
empty-sequence special case with its two asserts, otherwise `split_off`
at `sequence_idx` on the sequence and the quality scores (`split_off`
panics when the index exceeds the length).  Returns
(left sequence, right sequence, left qualities, right qualities). -/
def splitPayload (record : SamRecord) (idx : Nat) :
    Except ConvErr (List Nat × List Nat × List Nat × List Nat) :=
  if record.sequence.length = 0 then
    if record.quality_scores.length ≠ 0 then Except.error ConvErr.qualityScoresExist
    else if record.is_secondary = false then Except.error ConvErr.notSecondaryAlignment
    else Except.ok ([], [], [], [])
  else if record.sequence.length < idx then Except.error ConvErr.seqSplitOutOfBounds
  else if record.quality_scores.length < idx then Except.error ConvErr.qualSplitOutOfBounds
  else
    Except.ok (record.sequence.take idx, record.sequence.drop idx,
      record.quality_scores.take idx, record.quality_scores.drop idx)

/-- Byte encoding of the "_right" suffix appended to the right read's name. -/
def rightNameSuffix : List Nat := [95, 114, 105, 103, 104, 116]

/-- The left read (lines 226-232): clone of the record with alignment
start, cigar, quality scores and sequence replaced. -/
def mkLeft (record : SamRecord) (record_start : Nat) (w : WalkResult)
    (ls lq : List Nat) : SamRecord :=
  { record with
    alignment_start := some record_start
    cigar := w.left_cigar
    quality_scores := lq
    sequence := ls }

/-- The right read (lines 240-250): clone of the record with alignment
start 1 (Position::MIN), the right cigar, the right payload, and the name
suffixed with "_right". -/
def mkRight (record : SamRecord) (read_name : List Nat) (w : WalkResult)
    (rs rq : List Nat) : SamRecord :=
  { record with
    alignment_start := some 1
    cigar := rightCigarOf w
    quality_scores := rq
    sequence := rs
    name := some (read_name ++ rightNameSuffix) }

/-- The part of convert_read reached when the record is mapped with start
before `reflen` (lines 132-252): run the cigar loop, partition the
payload, and either report Unchanged (empty right cigar) or build the two
reads. -/
def convertCross (record : SamRecord) (read_name : List Nat)
    (record_start reflen : Nat) : Except ConvErr SplitType :=
  match splitPayload record (walk reflen record_start record.cigar).sequence_idx with
  | Except.error e => Except.error e
  | Except.ok (ls, rs, lq, rq) =>
    if (rightCigarOf (walk reflen record_start record.cigar)).length = 0 then
      Except.ok SplitType.Unchanged
    else
      Except.ok (SplitType.Split
        (mkLeft record record_start (walk reflen record_start record.cigar) ls lq)
        (mkRight record read_name (walk reflen record_start record.cigar) rs rq))

/-- convert_read (lines 94-253).  The record's name is unwrapped first
(line 95); an absent alignment start yields Unchanged (lines 99-102); the
name must decode as UTF-8 (lines 107-108); a start at or beyond `reflen`
yields a Modified read whose start is reduced by `reflen`, through
`Position::new`, which clears the field when the difference is 0
(lines 117-130); otherwise the splitting path runs. -/
def convert_read (record : SamRecord) (reflen : Nat) : Except ConvErr SplitType :=
  match record.name with
  | none => Except.error ConvErr.unknownReadName
  | some read_name =>
    match record.alignment_start with
    | none => Except.ok SplitType.Unchanged
    | some record_start =>
      if isValidUtf8 read_name = false then Except.error ConvErr.invalidUtf8Name
      else if reflen ≤ record_start then
        Except.ok (SplitType.Modified
          { record with alignment_start := position_new (record_start - reflen) })
      else convertCross record read_name record_start reflen

/-- The records written by the driver for one outcome (the match at
lines 79-87): one record for Unchanged or Modified, two for Split, in
encounter order. -/
def emitRecords : SplitType → SamRecord → List SamRecord
  | SplitType.Unchanged, record => [record]
  | SplitType.Modified r, _ => [r]
  | SplitType.Split l r, _ => [l, r]

/-- The record loop of convert_sam (lines 73-88): convert each record in
order and emit the resulting one or two records. -/
def processRecords (reflen : Nat) : List SamRecord → Except ConvErr (List SamRecord)
  | [] => Except.ok []
  | r :: rs =>
    match convert_read r reflen with
    | Except.error e => Except.error e
    | Except.ok t =>
      match processRecords reflen rs with
      | Except.error e => Except.error e
      | Except.ok rest => Except.ok (emitRecords t r ++ rest)

/-- The reference-sequence dictionary: an insertion-ordered map from name
to length (noodles uses an IndexMap). -/
abbrev RefDict := List (List Nat × Nat)

/-- IndexMap::insert: if the key is present its value is replaced in place
and the old value returned; otherwise the pair is appended at the end and
`none` returned. -/
def imInsert : RefDict → List Nat → Nat → RefDict × Option Nat
  | [], k, v => ([(k, v)], none)
  | (k1, v1) :: rest, k, v =>
    if k1 = k then ((k, v) :: rest, some v1)
    else
      let p := imInsert rest k v
      ((k1, v1) :: p.1, p.2)

/-- Index of the first entry with the given key (IndexMap key search). -/
def imFindIdx : RefDict → List Nat → Option Nat
  | [], _ => none
  | e :: rest, k =>
    if e.1 = k then some 0 else (imFindIdx rest k).map (· + 1)

/-- IndexMap::swap_remove: locate the key, overwrite its slot with the
last entry, and drop the last entry; a missing key leaves the map alone. -/
def imSwapRemove (m : RefDict) (k : List Nat) : RefDict :=
  match imFindIdx m k with
  | none => m
  | some i =>
    match m.getLast? with
    | none => m
    | some last => (m.set i last).dropLast

/-- The header adjustment of convert_sam (lines 50-64): build the entry of
length `reflen` (NonZeroUsize::new panics on 0), insert it under the
target name, and, only when the insert created a new entry, swap-remove
the entry under the old name. -/
def adjust_header (dict : RefDict) (refname target_refname : List Nat)
    (reflen : Nat) : Except ConvErr RefDict :=
  if reflen = 0 then Except.error ConvErr.zeroRefLen
  else if (imInsert dict target_refname reflen).2.isNone then
    Except.ok (imSwapRemove (imInsert dict target_refname reflen).1 refname)
  else Except.ok (imInsert dict target_refname reflen).1

/-- convert_sam (lines 41-92) restricted to its data content: adjust the
header dictionary, then stream the records; returns the adjusted
dictionary and the emitted records in order. -/
def convert_sam (dict : RefDict) (refname target_refname : List Nat)
    (reflen : Nat) (records : List SamRecord) :
    Except ConvErr (RefDict × List SamRecord) :=
  match adjust_header dict refname target_refname reflen with
  | Except.error e => Except.error e
  | Except.ok d =>
    match processRecords reflen records with
    | Except.error e => Except.error e
    | Except.ok out => Except.ok (d, out)

/-- Total length of the read-consuming operations of a cigar. -/
def readLen (ops : List Op) : Nat :=
  (ops.map (fun op => if op.kind.consumes_read then op.len else 0)).sum

/-- Total length of the reference-consuming operations of a cigar. -/
def refLen (ops : List Op) : Nat :=
  (ops.map (fun op => if op.kind.consumes_reference then op.len else 0)).sum

/-- The length invariant of the data model: the read-consumed length of
the cigar equals the sequence length and the quality-score length, except
when both are empty on a secondary alignment. -/
def lengthInvariant (r : SamRecord) : Prop :=
  (readLen r.cigar = r.sequence.length ∧ readLen r.cigar = r.quality_scores.length)
  ∨ (r.sequence = [] ∧ r.quality_scores = [] ∧ r.is_secondary = true)

instance (r : SamRecord) : Decidable (lengthInvariant r) := by
  unfold lengthInvariant; infer_instance

/-- Whether the reference-consuming operations, started at position `s`,
never carry the accumulated reference position past `reflen`. -/
def noCross (reflen : Nat) : Nat → List Op → Bool
  | _, [] => true
  | s, op :: rest =>
    if op.kind.consumes_reference = true then
      decide (s + op.len ≤ reflen) && noCross reflen (s + op.len) rest
    else noCross reflen s rest

/-- Lookup observation on a reference dictionary: value of the first
entry with the given name. -/
def lookupRef : RefDict → List Nat → Option Nat
  | [], _ => none
  | (k1, v) :: rest, k => if k1 = k then some v else lookupRef rest k

/-- Replace the first entry carrying key `k` by the entry `last`
(observation used to characterise imInsert on a present key and
imSwapRemove after an append). -/
def replaceFirst : RefDict → List Nat → (List Nat × Nat) → RefDict
  | [], _, _ => []
  | e :: rest, k, last =>
    if e.1 = k then last :: rest else e :: replaceFirst rest k last

/-- A small crossing record shared by several witnesses: one Match of
length 2 starting at position 1 against reflen 2, so the walk cuts it
into Match 1 / Match 1. -/
def witRec : SamRecord :=
  { name := some [65]
    alignment_start := some 1
    cigar := [⟨Kind.Match, 2⟩]
    sequence := [10, 11]
    quality_scores := [20, 21]
    is_secondary := false }

/-- Left half produced by convert_read on `witRec` with reflen 2. -/
def witLeft : SamRecord :=
  { name := some [65]
    alignment_start := some 1
    cigar := [⟨Kind.Match, 1⟩]
    sequence := [10]
    quality_scores := [20]
    is_secondary := false }

/-- Right half produced by convert_read on `witRec` with reflen 2. -/
def witRight : SamRecord :=
  { name := some [65, 95, 114, 105, 103, 104, 116]
    alignment_start := some 1
    cigar := [⟨Kind.Match, 1⟩]
    sequence := [11]
    quality_scores := [21]
    is_secondary := false }

/-- An empty mapped record used for the C4 boundary counterexample. -/
def c4rec : SamRecord :=
  { name := some [65]
    alignment_start := some 1
    cigar := []
    sequence := []
    quality_scores := []
    is_secondary := false }

/-- A mapped record fully inside the second reference copy. -/
def c4wrec : SamRecord :=
  { name := some [67]
    alignment_start := some 5
    cigar := [⟨Kind.Match, 2⟩]
    sequence := [1, 2]
    quality_scores := [3, 4]
    is_secondary := false }

/-- The payload of the spec scenario: 150 distinct bytes. -/
def scenSeq : List Nat := List.range 150

/-- The spec scenario record: operations S20 M30 D5 N5 M90 S10, start 910,
against reflen 1000. -/
def scenRec : SamRecord :=
  { name := some [82, 101, 97, 100, 49]
    alignment_start := some 910
    cigar := [⟨Kind.SoftClip, 20⟩, ⟨Kind.Match, 30⟩, ⟨Kind.Deletion, 5⟩,
      ⟨Kind.Skip, 5⟩, ⟨Kind.Match, 90⟩, ⟨Kind.SoftClip, 10⟩]
    sequence := scenSeq
    quality_scores := scenSeq
    is_secondary := false }

/-- The left read convert_read produces on the scenario. -/
def scenLeft : SamRecord :=
  { name := some [82, 101, 97, 100, 49]
    alignment_start := some 910
    cigar := [⟨Kind.SoftClip, 20⟩, ⟨Kind.Match, 30⟩, ⟨Kind.Deletion, 5⟩,
      ⟨Kind.Skip, 5⟩, ⟨Kind.Match, 50⟩]
    sequence := scenSeq.take 100
    quality_scores := scenSeq.take 100
    is_secondary := false }

/-- The right read convert_read produces on the scenario. -/
def scenRight : SamRecord :=
  { name := some [82, 101, 97, 100, 49, 95, 114, 105, 103, 104, 116]
    alignment_start := some 1
    cigar := [⟨Kind.Match, 40⟩, ⟨Kind.SoftClip, 10⟩]
    sequence := scenSeq.drop 100
    quality_scores := scenSeq.drop 100
    is_secondary := false }

/-- A mapped, non-crossing record with empty payload and no secondary
flag: the payload asserts still run. -/
def c6rec : SamRecord :=
  { name := some [65]
    alignment_start := some 1
    cigar := []
    sequence := []
    quality_scores := []
    is_secondary := false }

/-- A small non-crossing record with one base of payload. -/
def c6wrec : SamRecord :=
  { name := some [68]
    alignment_start := some 1
    cigar := [⟨Kind.Match, 1⟩]
    sequence := [9]
    quality_scores := [9]
    is_secondary := false }

/-- A secondary record with empty payload whose operations cross the
boundary. -/
def c7rec : SamRecord :=
  { name := some [69]
    alignment_start := some 1
    cigar := [⟨Kind.Match, 2⟩]
    sequence := []
    quality_scores := []
    is_secondary := true }

/-- A record with neither name nor alignment start. -/
def c8rec : SamRecord :=
  { name := none
    alignment_start := none
    cigar := []
    sequence := []
    quality_scores := []
    is_secondary := false }

/-- A named, unmapped record. -/
def c8wrec : SamRecord :=
  { name := some [70]
    alignment_start := none
    cigar := []
    sequence := []
    quality_scores := []
    is_secondary := false }

/-- A nameless unmapped record used to witness the C10 name panic. -/
def c10rec : SamRecord :=
  { name := none
    alignment_start := none
    cigar := []
    sequence := []
    quality_scores := []
    is_secondary := false }

theorem readLen_nil : readLen [] = 0 := rfl

theorem readLen_cons (op : Op) (l : List Op) :
    readLen (op :: l) = (if op.kind.consumes_read then op.len else 0) + readLen l := by
  simp [readLen]

theorem refLen_nil : refLen [] = 0 := rfl

theorem refLen_cons (op : Op) (l : List Op) :
    refLen (op :: l) = (if op.kind.consumes_reference then op.len else 0) + refLen l := by
  simp [refLen]

theorem walkStep_left_cigar (op : Op) (w : WalkResult) :
    (walkStep op w).left_cigar = op :: w.left_cigar := rfl

theorem walkStep_sequence_idx (op : Op) (w : WalkResult) :
    (walkStep op w).sequence_idx
      = (if op.kind.consumes_read then op.len else 0) + w.sequence_idx := rfl

theorem rightCigarOf_walkStep (op : Op) (w : WalkResult) :
    rightCigarOf (walkStep op w) = rightCigarOf w := rfl

theorem walk_nil (reflen s : Nat) : walk reflen s [] = ⟨[], 0, 0, Kind.Skip, []⟩ := rfl

theorem walk_cons_break (reflen s : Nat) (op : Op) (rest : List Op)
    (hr : op.kind.consumes_reference = true) (hs : reflen < s + op.len) :
    walk reflen s (op :: rest) =
      { left_cigar := [⟨op.kind, reflen - s⟩]
        sequence_idx := if op.kind.consumes_read then reflen - s else 0
        remaining_len := op.len - (reflen - s)
        curr_oper_kind := op.kind
        suffix := rest } := by
  simp [walk, hr, hs]

theorem walk_cons_adv (reflen s : Nat) (op : Op) (rest : List Op)
    (hr : op.kind.consumes_reference = true) (hs : ¬ reflen < s + op.len) :
    walk reflen s (op :: rest) = walkStep op (walk reflen (s + op.len) rest) := by
  simp [walk, hr, hs]

theorem walk_cons_noref (reflen s : Nat) (op : Op) (rest : List Op)
    (hr : op.kind.consumes_reference = false) :
    walk reflen s (op :: rest) = walkStep op (walk reflen s rest) := by
  simp [walk, hr]

theorem readLen_rightCigarOf (w : WalkResult) :
    readLen (rightCigarOf w) =
      (if w.curr_oper_kind.consumes_read then w.remaining_len else 0) + readLen w.suffix := by
  unfold rightCigarOf
  by_cases h0 : 0 < w.remaining_len
  · simp [h0, readLen]
  · have hz : w.remaining_len = 0 := by omega
    by_cases hk : w.curr_oper_kind.consumes_read <;> simp [h0, hz, hk, readLen]

/-- The read-consumed length of the left cigar equals `sequence_idx`. -/
theorem walk_readLen_left (reflen : Nat) (ops : List Op) : ∀ s : Nat,
    readLen (walk reflen s ops).left_cigar = (walk reflen s ops).sequence_idx := by
  induction ops with
  | nil => intro s; simp [walk_nil, readLen]
  | cons op rest ih =>
    intro s
    by_cases hr : op.kind.consumes_reference = true
    · by_cases hs : reflen < s + op.len
      · rw [walk_cons_break reflen s op rest hr hs]
        simp [readLen_cons, readLen_nil]
      · rw [walk_cons_adv reflen s op rest hr hs]
        rw [walkStep_left_cigar, walkStep_sequence_idx, readLen_cons, ih (s + op.len)]
    · have hr2 : op.kind.consumes_reference = false := by
        revert hr; cases op.kind.consumes_reference <;> simp
      rw [walk_cons_noref reflen s op rest hr2]
      rw [walkStep_left_cigar, walkStep_sequence_idx, readLen_cons, ih s]

/-- Read conservation: `sequence_idx` plus the read-consumed length of the
right cigar equals the read-consumed length of the whole cigar. -/
theorem walk_read_conservation (reflen : Nat) (ops : List Op) : ∀ s : Nat,
    (walk reflen s ops).sequence_idx + readLen (rightCigarOf (walk reflen s ops))
      = readLen ops := by
  induction ops with
  | nil => intro s; simp [walk_nil, rightCigarOf, readLen]
  | cons op rest ih =>
    intro s
    by_cases hr : op.kind.consumes_reference = true
    · by_cases hs : reflen < s + op.len
      · rw [walk_cons_break reflen s op rest hr hs]
        rw [readLen_rightCigarOf, readLen_cons]
        simp only
        by_cases hk : op.kind.consumes_read <;> simp only [hk, if_pos, if_neg, if_true,
          Bool.false_eq_true, if_false] <;> omega
      · rw [walk_cons_adv reflen s op rest hr hs, rightCigarOf_walkStep,
          walkStep_sequence_idx, readLen_cons]
        have := ih (s + op.len)
        omega
    · have hr2 : op.kind.consumes_reference = false := by
        revert hr; cases op.kind.consumes_reference <;> simp
      rw [walk_cons_noref reflen s op rest hr2, rightCigarOf_walkStep,
        walkStep_sequence_idx, readLen_cons]
      have := ih s
      omega

/-- Boundary arithmetic: when the walk breaks (nonempty right cigar) from a
start not beyond `reflen`, the start plus the reference-consumed length of
the left cigar is exactly `reflen`. -/
theorem walk_ref_boundary (reflen : Nat) (ops : List Op) : ∀ s : Nat, s ≤ reflen →
    rightCigarOf (walk reflen s ops) ≠ [] →
    s + refLen (walk reflen s ops).left_cigar = reflen := by
  induction ops with
  | nil => intro s _ hne; simp [walk_nil, rightCigarOf] at hne
  | cons op rest ih =>
    intro s hle hne
    by_cases hr : op.kind.consumes_reference = true
    · by_cases hs : reflen < s + op.len
      · rw [walk_cons_break reflen s op rest hr hs]
        simp only [refLen_cons, refLen_nil, hr, if_true]
        omega
      · rw [walk_cons_adv reflen s op rest hr hs] at hne ⊢
        rw [rightCigarOf_walkStep] at hne
        rw [walkStep_left_cigar, refLen_cons]
        have hle2 : s + op.len ≤ reflen := by omega
        have := ih (s + op.len) hle2 hne
        simp only [hr, if_true]
        omega
    · have hr2 : op.kind.consumes_reference = false := by
        revert hr; cases op.kind.consumes_reference <;> simp
      rw [walk_cons_noref reflen s op rest hr2] at hne ⊢
      rw [rightCigarOf_walkStep] at hne
      rw [walkStep_left_cigar, refLen_cons]
      have := ih s hle hne
      simp only [hr2, Bool.false_eq_true, if_false]
      omega

/-- A cigar that never crosses the boundary makes the walk run to
completion: nothing remains for the right side. -/
theorem walk_noCross (reflen : Nat) (ops : List Op) : ∀ s : Nat,
    noCross reflen s ops = true →
    (walk reflen s ops).remaining_len = 0 ∧ (walk reflen s ops).suffix = [] := by
  induction ops with
  | nil => intro s _; simp [walk_nil]
  | cons op rest ih =>
    intro s hnc
    by_cases hr : op.kind.consumes_reference = true
    · simp only [noCross] at hnc
      rw [if_pos hr, Bool.and_eq_true, decide_eq_true_eq] at hnc
      have hs : ¬ reflen < s + op.len := by omega
      rw [walk_cons_adv reflen s op rest hr hs]
      exact ih (s + op.len) hnc.2
    · have hr2 : op.kind.consumes_reference = false := by
        revert hr; cases op.kind.consumes_reference <;> simp
      simp only [noCross] at hnc
      rw [if_neg hr] at hnc
      rw [walk_cons_noref reflen s op rest hr2]
      exact ih s hnc

/-- Under `noCross` the right cigar is empty. -/
theorem rightCigarOf_noCross (reflen s : Nat) (ops : List Op)
    (h : noCross reflen s ops = true) : rightCigarOf (walk reflen s ops) = [] := by
  obtain ⟨h1, h2⟩ := walk_noCross reflen ops s h
  simp [rightCigarOf, h1, h2]

/-- Inversion of a successful payload partition. -/
theorem splitPayload_ok_inv (record : SamRecord) (idx : Nat)
    (p : List Nat × List Nat × List Nat × List Nat)
    (h : splitPayload record idx = Except.ok p) :
    (record.sequence = [] ∧ record.quality_scores = [] ∧ record.is_secondary = true ∧
      p = ([], [], [], []))
    ∨ (record.sequence ≠ [] ∧ idx ≤ record.sequence.length ∧
      idx ≤ record.quality_scores.length ∧
      p = (record.sequence.take idx, record.sequence.drop idx,
        record.quality_scores.take idx, record.quality_scores.drop idx)) := by
  unfold splitPayload at h
  by_cases h1 : record.sequence.length = 0
  · rw [if_pos h1] at h
    by_cases h2 : record.quality_scores.length ≠ 0
    · rw [if_pos h2] at h; exact absurd h (by simp)
    · rw [if_neg h2] at h
      by_cases h3 : record.is_secondary = false
      · rw [if_pos h3] at h; exact absurd h (by simp)
      · rw [if_neg h3] at h
        left
        refine ⟨List.length_eq_zero.mp h1, List.length_eq_zero.mp (by omega), ?_, ?_⟩
        · revert h3; cases record.is_secondary <;> simp
        · exact (Except.ok.injEq _ _).mp h.symm
  · rw [if_neg h1] at h
    by_cases h4 : record.sequence.length < idx
    · rw [if_pos h4] at h; exact absurd h (by simp)
    · rw [if_neg h4] at h
      by_cases h5 : record.quality_scores.length < idx
      · rw [if_pos h5] at h; exact absurd h (by simp)
      · rw [if_neg h5] at h
        right
        refine ⟨fun hn => h1 (by simp [hn]), by omega, by omega, ?_⟩
        exact (Except.ok.injEq _ _).mp h.symm

/-- The empty-payload partition: both asserts pass exactly when the
quality scores are empty and the record is secondary. -/
theorem splitPayload_empty (record : SamRecord) (idx : Nat)
    (hs : record.sequence = []) (hq : record.quality_scores = [])
    (hsec : record.is_secondary = true) :
    splitPayload record idx = Except.ok ([], [], [], []) := by
  unfold splitPayload
  rw [if_pos (by simp [hs])]
  rw [if_neg (by simp [hq])]
  rw [if_neg (by simp [hsec])]

/-- convertCross never reports a Modified read. -/
theorem convertCross_ok_cases (record : SamRecord) (read_name : List Nat)
    (record_start reflen : Nat) (t : SplitType)
    (h : convertCross record read_name record_start reflen = Except.ok t) :
    t = SplitType.Unchanged ∨ ∃ l r, t = SplitType.Split l r := by
  unfold convertCross at h
  split at h
  · exact absurd h (by simp)
  · split at h
    · left; exact ((Except.ok.injEq _ _).mp h).symm
    · right
      exact ⟨_, _, ((Except.ok.injEq _ _).mp h).symm⟩

/-- Inversion of a Split outcome of convertCross: the payload partition
succeeded, the right cigar is nonempty, and the two reads are the built
left and right reads. -/
theorem convertCross_split_inv (record : SamRecord) (read_name : List Nat)
    (record_start reflen : Nat) (l r : SamRecord)
    (h : convertCross record read_name record_start reflen
      = Except.ok (SplitType.Split l r)) :
    ∃ p, splitPayload record (walk reflen record_start record.cigar).sequence_idx
        = Except.ok p ∧
      rightCigarOf (walk reflen record_start record.cigar) ≠ [] ∧
      l = mkLeft record record_start (walk reflen record_start record.cigar) p.1 p.2.2.1 ∧
      r = mkRight record read_name (walk reflen record_start record.cigar) p.2.1 p.2.2.2 := by
  unfold convertCross at h
  split at h
  · exact absurd h (by simp)
  · rename_i p ls rs lq rq heq
    split at h
    · exact absurd ((Except.ok.injEq _ _).mp h) (by simp)
    · rename_i hlen
      obtain ⟨hl, hr⟩ := (SplitType.Split.injEq _ _ _ _).mp ((Except.ok.injEq _ _).mp h)
      refine ⟨(ls, rs, lq, rq), heq, ?_, hl.symm, hr.symm⟩
      intro hc
      exact hlen (by rw [hc]; rfl)

/-- convert_read with a present name, a present start before reflen, and a
valid UTF-8 name runs the splitting path. -/
theorem convert_read_cross (record : SamRecord) (nm : List Nat) (S reflen : Nat)
    (h1 : record.name = some nm) (h2 : record.alignment_start = some S)
    (h3 : isValidUtf8 nm = true) (h4 : S < reflen) :
    convert_read record reflen = convertCross record nm S reflen := by
  unfold convert_read
  rw [h1, h2]
  simp only [h3]
  rw [if_neg (by simp)]
  rw [if_neg (by omega)]

/-- Master inversion of a successful convert_read. -/
theorem convert_read_ok_inv (record : SamRecord) (reflen : Nat) (t : SplitType)
    (h : convert_read record reflen = Except.ok t) :
    (record.alignment_start = none ∧ t = SplitType.Unchanged)
    ∨ (∃ nm S, record.name = some nm ∧ isValidUtf8 nm = true ∧
        record.alignment_start = some S ∧ reflen ≤ S ∧
        t = SplitType.Modified
          { record with alignment_start := position_new (S - reflen) })
    ∨ (∃ nm S, record.name = some nm ∧ isValidUtf8 nm = true ∧
        record.alignment_start = some S ∧ S < reflen ∧
        convertCross record nm S reflen = Except.ok t) := by
  unfold convert_read at h
  split at h
  · exact absurd h (by simp)
  · rename_i nm hn
    split at h
    · rename_i hs
      left
      exact ⟨hs, ((Except.ok.injEq _ _).mp h).symm⟩
    · rename_i S hs
      split at h
      · exact absurd h (by simp)
      · rename_i hutf
        have h3 : isValidUtf8 nm = true := by
          revert hutf; cases isValidUtf8 nm <;> simp
        split at h
        · rename_i hge
          right; left
          exact ⟨nm, S, hn, h3, hs, hge, ((Except.ok.injEq _ _).mp h).symm⟩
        · rename_i hlt
          right; right
          exact ⟨nm, S, hn, h3, hs, by omega, h⟩

/-- One record's conversion preserves the length invariant on everything
it emits. -/
theorem convert_read_preserves (record : SamRecord) (reflen : Nat) (t : SplitType)
    (h : convert_read record reflen = Except.ok t) (hinv : lengthInvariant record) :
    ∀ rec ∈ emitRecords t record, lengthInvariant rec := by
  rcases convert_read_ok_inv record reflen t h with ⟨_, ht⟩
    | ⟨nm, S, _hn, _hu, _hs, _hge, ht⟩ | ⟨nm, S, hn, hu, hs, hlt, hcc⟩
  · subst ht
    intro rec hrec
    simp only [emitRecords, List.mem_singleton] at hrec
    subst hrec; exact hinv
  · subst ht
    intro rec hrec
    simp only [emitRecords, List.mem_singleton] at hrec
    subst hrec
    exact hinv
  · rcases convertCross_ok_cases record nm S reflen t hcc with ht | ⟨l, r, ht⟩
    · subst ht
      intro rec hrec
      simp only [emitRecords, List.mem_singleton] at hrec
      subst hrec; exact hinv
    · subst ht
      obtain ⟨p, hp, hne, hl, hr⟩ := convertCross_split_inv record nm S reflen l r hcc
      intro rec hrec
      simp only [emitRecords, List.mem_cons, List.mem_singleton, List.not_mem_nil,
        or_false] at hrec
      rcases splitPayload_ok_inv record _ p hp with ⟨hseq, hq, hsec, hp4⟩
        | ⟨hseq, hb1, hb2, hp4⟩
      · subst hp4
        rcases hrec with hrec | hrec <;> subst hrec
        · subst hl
          right
          exact ⟨rfl, rfl, hsec⟩
        · subst hr
          right
          exact ⟨rfl, rfl, hsec⟩
      · subst hp4
        have htot : readLen record.cigar = record.sequence.length ∧
            readLen record.cigar = record.quality_scores.length := by
          rcases hinv with h1 | h2
          · exact h1
          · exact absurd h2.1 hseq
        have hcons := walk_read_conservation reflen record.cigar S
        have hleft := walk_readLen_left reflen record.cigar S
        rcases hrec with hrec | hrec <;> subst hrec
        · subst hl
          left
          constructor
          · show readLen (walk reflen S record.cigar).left_cigar
              = (record.sequence.take (walk reflen S record.cigar).sequence_idx).length
            rw [hleft, List.length_take, min_eq_left hb1]
          · show readLen (walk reflen S record.cigar).left_cigar
              = (record.quality_scores.take (walk reflen S record.cigar).sequence_idx).length
            rw [hleft, List.length_take, min_eq_left hb2]
        · subst hr
          left
          constructor
          · show readLen (rightCigarOf (walk reflen S record.cigar))
              = (record.sequence.drop (walk reflen S record.cigar).sequence_idx).length
            rw [List.length_drop]
            omega
          · show readLen (rightCigarOf (walk reflen S record.cigar))
              = (record.quality_scores.drop (walk reflen S record.cigar).sequence_idx).length
            rw [List.length_drop]
            omega

/-- The record loop preserves the length invariant. -/
theorem processRecords_preserves (reflen : Nat) (records : List SamRecord)
    (out : List SamRecord) (h : processRecords reflen records = Except.ok out)
    (hinv : ∀ r ∈ records, lengthInvariant r) :
    ∀ rec ∈ out, lengthInvariant rec := by
  induction records generalizing out with
  | nil =>
    unfold processRecords at h
    obtain rfl := (Except.ok.injEq _ _).mp h
    intro rec hrec
    exact absurd hrec (List.not_mem_nil rec)
  | cons r rs ih =>
    unfold processRecords at h
    split at h
    · exact absurd h (by simp)
    · rename_i t hct
      split at h
      · exact absurd h (by simp)
      · rename_i rest hrest
        obtain rfl := (Except.ok.injEq _ _).mp h
        intro rec hrec
        rcases List.mem_append.mp hrec with hm | hm
        · exact convert_read_preserves r reflen t hct (hinv r (by simp)) rec hm
        · exact ih rest hrest (fun x hx => hinv x (by simp [hx])) rec hm

theorem witRec_split : convert_read witRec 2 = Except.ok (SplitType.Split witLeft witRight) := rfl

/-- Claim C1: every record emitted by convert_sam — unchanged, shifted, or
either half of a split — satisfies the length invariant (read-consumed
cigar length = sequence length = quality length, or empty payload on a
secondary record), assuming every input record satisfies it. -/
theorem c1_emitted_length_invariant (dict : RefDict) (refname target : List Nat)
    (reflen : Nat) (records : List SamRecord) (d : RefDict) (out : List SamRecord)
    (h : convert_sam dict refname target reflen records = Except.ok (d, out))
    (hinv : ∀ r ∈ records, lengthInvariant r) :
    ∀ rec ∈ out, lengthInvariant rec := by
  unfold convert_sam at h
  split at h
  · exact absurd h (by simp)
  · split at h
    · exact absurd h (by simp)
    · rename_i out2 hout
      have h2 := (Except.ok.injEq _ _).mp h
      rw [Prod.mk.injEq] at h2
      obtain ⟨rfl, rfl⟩ := h2
      exact processRecords_preserves reflen records _ hout hinv

theorem c1_witness : lengthInvariant witLeft :=
  c1_emitted_length_invariant [([0], 4)] [0] [1] 2 [witRec] [([1], 2)]
    [witLeft, witRight] rfl (by decide) witLeft (by decide)

/-- Claim C2 counterexample: on a Match of length 2 starting at 1 with
reflen 2 the code splits, the left half keeps reference length 1, and
left.alignment_start + refLen(left) - 1 = 1, not reflen = 2: the base at
position reflen goes to the right half, so the claimed equation fails. -/
theorem c2_counterexample :
    convert_read witRec 2 = Except.ok (SplitType.Split witLeft witRight) ∧
    witLeft.alignment_start = some 1 ∧ refLen witLeft.cigar = 1 ∧
    ¬ (1 + refLen witLeft.cigar - 1 = 2) :=
  ⟨witRec_split, rfl, rfl, by decide⟩

/-- Claim C2 (amended): for every Split outcome the left record keeps the
original start S, and S plus the reference-consumed length of the left
operations equals reflen (without the classical minus one: the left half
ends at position reflen - 1), while the right record starts at 1. -/
theorem c2_boundary_conservation (record : SamRecord) (reflen : Nat) (l r : SamRecord)
    (h : convert_read record reflen = Except.ok (SplitType.Split l r)) :
    (∃ S, record.alignment_start = some S ∧ l.alignment_start = some S ∧
      S + refLen l.cigar = reflen) ∧ r.alignment_start = some 1 := by
  rcases convert_read_ok_inv record reflen _ h with ⟨_, ht⟩ | ⟨nm, S, _, _, _, _, ht⟩
    | ⟨nm, S, hn, hu, hs, hlt, hcc⟩
  · exact absurd ht (by simp)
  · exact absurd ht (by simp)
  · obtain ⟨p, hp, hne, hl, hr⟩ := convertCross_split_inv record nm S reflen l r hcc
    constructor
    · refine ⟨S, hs, by rw [hl]; rfl, ?_⟩
      rw [hl]
      show S + refLen (walk reflen S record.cigar).left_cigar = reflen
      exact walk_ref_boundary reflen record.cigar S (by omega) hne
    · rw [hr]; rfl

theorem c2_witness :
    (∃ S, witRec.alignment_start = some S ∧ witLeft.alignment_start = some S ∧
      S + refLen witLeft.cigar = 2) ∧ witRight.alignment_start = some 1 :=
  c2_boundary_conservation witRec 2 witLeft witRight witRec_split

/-- Claim C3: for every Split outcome, left and right sequences
concatenate to the original sequence, likewise the quality scores, and the
read-consumed lengths of the two cigars sum to the original one. -/
theorem c3_coverage_conservation (record : SamRecord) (reflen : Nat) (l r : SamRecord)
    (h : convert_read record reflen = Except.ok (SplitType.Split l r)) :
    l.sequence ++ r.sequence = record.sequence ∧
    l.quality_scores ++ r.quality_scores = record.quality_scores ∧
    readLen l.cigar + readLen r.cigar = readLen record.cigar := by
  rcases convert_read_ok_inv record reflen _ h with ⟨_, ht⟩ | ⟨nm, S, _, _, _, _, ht⟩
    | ⟨nm, S, hn, hu, hs, hlt, hcc⟩
  · exact absurd ht (by simp)
  · exact absurd ht (by simp)
  · obtain ⟨p, hp, hne, hl, hr⟩ := convertCross_split_inv record nm S reflen l r hcc
    have hcons := walk_read_conservation reflen record.cigar S
    have hleft := walk_readLen_left reflen record.cigar S
    rcases splitPayload_ok_inv record _ p hp with ⟨hseq, hq, hsec, hp4⟩
      | ⟨hseq, hb1, hb2, hp4⟩
    · subst hp4; subst hl; subst hr
      refine ⟨?_, ?_, ?_⟩
      · show ([] : List Nat) ++ [] = record.sequence
        rw [hseq]; rfl
      · show ([] : List Nat) ++ [] = record.quality_scores
        rw [hq]; rfl
      · show readLen (walk reflen S record.cigar).left_cigar
          + readLen (rightCigarOf (walk reflen S record.cigar)) = readLen record.cigar
        rw [hleft]; exact hcons
    · subst hp4; subst hl; subst hr
      refine ⟨?_, ?_, ?_⟩
      · exact List.take_append_drop _ _
      · exact List.take_append_drop _ _
      · show readLen (walk reflen S record.cigar).left_cigar
          + readLen (rightCigarOf (walk reflen S record.cigar)) = readLen record.cigar
        rw [hleft]; exact hcons

theorem c3_witness :
    witLeft.sequence ++ witRight.sequence = witRec.sequence ∧
    witLeft.quality_scores ++ witRight.quality_scores = witRec.quality_scores ∧
    readLen witLeft.cigar + readLen witRight.cigar = readLen witRec.cigar :=
  c3_coverage_conservation witRec 2 witLeft witRight witRec_split

/-- Claim C4 counterexample: with reflen 1 and start S = 1 = reflen the
shift branch runs, but Position::new(S - reflen) = Position::new(0) is
None, so the Modified record carries no alignment start instead of the
claimed start S - reflen = 0. -/
theorem c4_counterexample :
    1 ≤ (1 : Nat) ∧
    convert_read c4rec 1 = Except.ok (SplitType.Modified
      { c4rec with alignment_start := none }) ∧
    ({ c4rec with alignment_start := none } : SamRecord).alignment_start ≠ some (1 - 1) :=
  ⟨le_refl 1, rfl, by decide⟩

/-- Claim C4 (amended): a mapped record with a valid UTF-8 name and start
S at or beyond reflen yields one Modified record identical to the input
except that the start becomes Position::new(S - reflen): some (S - reflen)
for S > reflen, cleared to none at S = reflen. -/
theorem c4_shift (record : SamRecord) (nm : List Nat) (S reflen : Nat)
    (h1 : record.name = some nm) (h2 : isValidUtf8 nm = true)
    (h3 : record.alignment_start = some S) (h4 : reflen ≤ S) :
    convert_read record reflen = Except.ok (SplitType.Modified
      { record with alignment_start := position_new (S - reflen) }) := by
  unfold convert_read
  rw [h1, h3]
  simp only [h2]
  rw [if_neg (by simp)]
  rw [if_pos h4]

theorem c4_witness :
    convert_read c4wrec 3 = Except.ok (SplitType.Modified
      { c4wrec with alignment_start := position_new (5 - 3) }) :=
  c4_shift c4wrec [67] 5 3 rfl (by decide) rfl (by decide)

set_option maxRecDepth 8000 in
theorem scen_split :
    convert_read scenRec 1000 = Except.ok (SplitType.Split scenLeft scenRight) := rfl

/-- Claim C5 counterexample: the scenario splits as claimed, but the right
operation list begins with Match 40 (90 minus the 50 bases kept left), not
Match 10. -/
theorem c5_counterexample :
    convert_read scenRec 1000 = Except.ok (SplitType.Split scenLeft scenRight) ∧
    scenRight.cigar.head? = some ⟨Kind.Match, 40⟩ ∧
    scenRight.cigar.head? ≠ some ⟨Kind.Match, 10⟩ :=
  ⟨scen_split, rfl, by decide⟩

/-- Claim C5 (amended): the scenario yields a Split whose left sequence is
the first 100 read-consuming bases, whose right sequence is the remaining
50, whose right record starts at 1, and whose right operation list is
Match 40 followed by SoftClip 10. -/
theorem c5_scenario :
    convert_read scenRec 1000 = Except.ok (SplitType.Split scenLeft scenRight) ∧
    scenLeft.sequence = scenSeq.take 100 ∧
    scenRight.sequence = scenSeq.drop 100 ∧
    scenRight.alignment_start = some 1 ∧
    scenRight.cigar = [⟨Kind.Match, 40⟩, ⟨Kind.SoftClip, 10⟩] :=
  ⟨scen_split, rfl, rfl, rfl, rfl⟩

/-- Claim C6 counterexample: a mapped record with start 1 < reflen = 2
whose (empty) operations never cross the boundary still fails on the
secondary-alignment assert, because its payload is empty and it is not
secondary — convert_read does not return Unchanged for it. -/
theorem c6_counterexample :
    c6rec.alignment_start = some 1 ∧
    noCross 2 1 c6rec.cigar = true ∧
    convert_read c6rec 2 = Except.error ConvErr.notSecondaryAlignment :=
  ⟨rfl, rfl, rfl⟩

/-- Claim C6 (amended): a record with a valid UTF-8 name, mapped with
S < reflen, whose reference-consuming operations never carry the position
past reflen, and whose payload is well formed (length invariant, with an
empty sequence only on a secondary record) yields Unchanged, and the
driver then forwards the original record. -/
theorem c6_noncrossing_unchanged (record : SamRecord) (nm : List Nat) (S reflen : Nat)
    (h1 : record.name = some nm) (h2 : isValidUtf8 nm = true)
    (h3 : record.alignment_start = some S) (h4 : S < reflen)
    (h5 : noCross reflen S record.cigar = true)
    (h6 : lengthInvariant record)
    (h7 : record.sequence = [] → record.is_secondary = true) :
    convert_read record reflen = Except.ok SplitType.Unchanged ∧
    emitRecords SplitType.Unchanged record = [record] := by
  constructor
  · rw [convert_read_cross record nm S reflen h1 h3 h2 h4]
    have hrc : rightCigarOf (walk reflen S record.cigar) = [] :=
      rightCigarOf_noCross reflen S record.cigar h5
    unfold convertCross
    by_cases hseq : record.sequence = []
    · have hq : record.quality_scores = [] := by
        rcases h6 with ⟨ha, hb⟩ | ⟨_, hb, _⟩
        · have hl0 : record.sequence.length = 0 := by rw [hseq]; rfl
          exact List.length_eq_zero.mp (by omega)
        · exact hb
      rw [splitPayload_empty record _ hseq hq (h7 hseq)]
      simp [hrc]
    · have htot : readLen record.cigar = record.sequence.length ∧
          readLen record.cigar = record.quality_scores.length := by
        rcases h6 with hA | hB
        · exact hA
        · exact absurd hB.1 hseq
      have hidx : (walk reflen S record.cigar).sequence_idx ≤ readLen record.cigar := by
        have := walk_read_conservation reflen record.cigar S
        omega
      have hsp : splitPayload record (walk reflen S record.cigar).sequence_idx
          = Except.ok (record.sequence.take (walk reflen S record.cigar).sequence_idx,
            record.sequence.drop (walk reflen S record.cigar).sequence_idx,
            record.quality_scores.take (walk reflen S record.cigar).sequence_idx,
            record.quality_scores.drop (walk reflen S record.cigar).sequence_idx) := by
        unfold splitPayload
        rw [if_neg (fun hh => hseq (List.length_eq_zero.mp hh))]
        rw [if_neg (by omega)]
        rw [if_neg (by omega)]
      rw [hsp]
      simp [hrc]
  · rfl

theorem c6_witness :
    convert_read c6wrec 2 = Except.ok SplitType.Unchanged ∧
    emitRecords SplitType.Unchanged c6wrec = [c6wrec] :=
  c6_noncrossing_unchanged c6wrec [68] 1 2 rfl (by decide) rfl (by decide) (by decide)
    (by decide) (by decide)

/-- Claim C7: for a mapped record with S < reflen, an empty sequence with
empty quality scores on a secondary record partitions without error (and
any resulting Split carries empty payloads on both halves); an empty
sequence with non-empty quality scores, or an empty payload on a
non-secondary record, makes convert_read fail on the corresponding assert
instead of emitting a record. -/
theorem c7_empty_payload :
    (∀ (record : SamRecord) (nm : List Nat) (S reflen : Nat),
      record.name = some nm → isValidUtf8 nm = true →
      record.alignment_start = some S → S < reflen →
      record.sequence = [] → record.quality_scores = [] → record.is_secondary = true →
      ∃ t, convert_read record reflen = Except.ok t ∧
        ∀ l r, t = SplitType.Split l r →
          l.sequence = [] ∧ l.quality_scores = [] ∧
          r.sequence = [] ∧ r.quality_scores = []) ∧
    (∀ (record : SamRecord) (nm : List Nat) (S reflen : Nat),
      record.name = some nm → isValidUtf8 nm = true →
      record.alignment_start = some S → S < reflen →
      record.sequence = [] → record.quality_scores ≠ [] →
      convert_read record reflen = Except.error ConvErr.qualityScoresExist) ∧
    (∀ (record : SamRecord) (nm : List Nat) (S reflen : Nat),
      record.name = some nm → isValidUtf8 nm = true →
      record.alignment_start = some S → S < reflen →
      record.sequence = [] → record.quality_scores = [] → record.is_secondary = false →
      convert_read record reflen = Except.error ConvErr.notSecondaryAlignment) := by
  refine ⟨?_, ?_, ?_⟩
  · intro record nm S reflen h1 h2 h3 h4 hs hq hsec
    rw [convert_read_cross record nm S reflen h1 h3 h2 h4]
    unfold convertCross
    rw [splitPayload_empty record _ hs hq hsec]
    by_cases hrc : (rightCigarOf (walk reflen S record.cigar)).length = 0
    · refine ⟨SplitType.Unchanged, by simp [hrc], ?_⟩
      intro l r hlr
      exact absurd hlr (by simp)
    · refine ⟨SplitType.Split (mkLeft record S (walk reflen S record.cigar) [] [])
        (mkRight record nm (walk reflen S record.cigar) [] []), by simp [hrc], ?_⟩
      intro l r hlr
      obtain ⟨hl, hr⟩ := (SplitType.Split.injEq _ _ _ _).mp hlr
      subst hl; subst hr
      exact ⟨rfl, rfl, rfl, rfl⟩
  · intro record nm S reflen h1 h2 h3 h4 hs hq
    rw [convert_read_cross record nm S reflen h1 h3 h2 h4]
    unfold convertCross
    have hsp : splitPayload record (walk reflen S record.cigar).sequence_idx
        = Except.error ConvErr.qualityScoresExist := by
      unfold splitPayload
      rw [if_pos (by rw [hs]; rfl)]
      rw [if_pos (fun hh => hq (List.length_eq_zero.mp hh))]
    rw [hsp]
  · intro record nm S reflen h1 h2 h3 h4 hs hq hsec
    rw [convert_read_cross record nm S reflen h1 h3 h2 h4]
    unfold convertCross
    have hsp : splitPayload record (walk reflen S record.cigar).sequence_idx
        = Except.error ConvErr.notSecondaryAlignment := by
      unfold splitPayload
      rw [if_pos (by rw [hs]; rfl)]
      rw [if_neg (by rw [hq]; simp)]
      rw [if_pos hsec]
    rw [hsp]

theorem c7_witness :
    ∃ t, convert_read c7rec 2 = Except.ok t ∧
      ∀ l r, t = SplitType.Split l r →
        l.sequence = [] ∧ l.quality_scores = [] ∧
        r.sequence = [] ∧ r.quality_scores = [] :=
  c7_empty_payload.1 c7rec [69] 1 2 rfl (by decide) rfl (by decide) rfl rfl rfl

/-- Claim C8 counterexample: a record with no name and no alignment start
fails on the name unwrap (the expect at line 95) instead of being passed
through Unchanged. -/
theorem c8_counterexample :
    c8rec.alignment_start = none ∧
    convert_read c8rec 5 = Except.error ConvErr.unknownReadName :=
  ⟨rfl, rfl⟩

/-- Claim C8 (amended): a record that carries a name but no alignment
start yields Unchanged — not an error — and the driver forwards the
original record untouched. -/
theorem c8_missing_start (record : SamRecord) (nm : List Nat) (reflen : Nat)
    (h1 : record.name = some nm) (h2 : record.alignment_start = none) :
    convert_read record reflen = Except.ok SplitType.Unchanged ∧
    emitRecords SplitType.Unchanged record = [record] := by
  constructor
  · unfold convert_read
    rw [h1, h2]
  · rfl

theorem c8_witness :
    convert_read c8wrec 5 = Except.ok SplitType.Unchanged ∧
    emitRecords SplitType.Unchanged c8wrec = [c8wrec] :=
  c8_missing_start c8wrec [70] 5 rfl rfl

/-- Claim C10: the name is unwrapped before the missing-start check, so a
record with no name always errors — even one with no alignment start, the
case the spec promises to pass through — and a mapped record with start
below reflen whose name is not valid UTF-8 errors on the UTF-8 unwrap;
success of convert_read requires a present name. -/
theorem c10_name_unwrap :
    (∀ (record : SamRecord) (reflen : Nat), record.name = none →
      convert_read record reflen = Except.error ConvErr.unknownReadName) ∧
    (∀ (record : SamRecord) (nm : List Nat) (S reflen : Nat),
      record.name = some nm → isValidUtf8 nm = false →
      record.alignment_start = some S → S < reflen →
      convert_read record reflen = Except.error ConvErr.invalidUtf8Name) ∧
    (∀ (record : SamRecord) (reflen : Nat) (t : SplitType),
      convert_read record reflen = Except.ok t → record.name ≠ none) := by
  refine ⟨?_, ?_, ?_⟩
  · intro record reflen h
    unfold convert_read
    rw [h]
  · intro record nm S reflen h1 h2 h3 h4
    unfold convert_read
    rw [h1, h3]
    simp only [h2]
    simp
  · intro record reflen t h hn
    unfold convert_read at h
    rw [hn] at h
    exact absurd h (by simp)

theorem c10_witness :
    convert_read c10rec 3 = Except.error ConvErr.unknownReadName :=
  c10_name_unwrap.1 c10rec 3 rfl

theorem lookupRef_nil (k : List Nat) : lookupRef [] k = none := rfl

theorem lookupRef_cons (a : List Nat) (b : Nat) (m : RefDict) (k : List Nat) :
    lookupRef ((a, b) :: m) k = if a = k then some b else lookupRef m k := rfl

theorem replaceFirst_cons (a : List Nat) (b : Nat) (rest : RefDict) (k : List Nat)
    (last : List Nat × Nat) :
    replaceFirst ((a, b) :: rest) k last
      = if a = k then last :: rest else (a, b) :: replaceFirst rest k last := rfl

theorem imFindIdx_nil (k : List Nat) : imFindIdx [] k = none := rfl

theorem imFindIdx_cons (a : List Nat) (b : Nat) (rest : RefDict) (k : List Nat) :
    imFindIdx ((a, b) :: rest) k
      = if a = k then some 0 else (imFindIdx rest k).map (· + 1) := rfl

theorem imInsert_cons (a : List Nat) (b : Nat) (rest : RefDict) (k : List Nat) (v : Nat) :
    imInsert ((a, b) :: rest) k v
      = if a = k then ((k, v) :: rest, some b)
        else ((a, b) :: (imInsert rest k v).1, (imInsert rest k v).2) := rfl

/-- Inserting an absent key appends the entry and returns none. -/
theorem imInsert_not_mem (m : RefDict) (k : List Nat) (v : Nat)
    (h : lookupRef m k = none) : imInsert m k v = (m ++ [(k, v)], none) := by
  induction m with
  | nil => rfl
  | cons e rest ih =>
    obtain ⟨a, b⟩ := e
    rw [lookupRef_cons] at h
    by_cases he : a = k
    · rw [if_pos he] at h; exact absurd h (by simp)
    · rw [if_neg he] at h
      rw [imInsert_cons, if_neg he, ih h]
      rfl

/-- Inserting a present key replaces its first entry in place and returns
the old value. -/
theorem imInsert_mem (m : RefDict) (k : List Nat) (v v0 : Nat)
    (h : lookupRef m k = some v0) :
    imInsert m k v = (replaceFirst m k (k, v), some v0) := by
  induction m with
  | nil => rw [lookupRef_nil] at h; exact absurd h (by simp)
  | cons e rest ih =>
    obtain ⟨a, b⟩ := e
    rw [lookupRef_cons] at h
    by_cases he : a = k
    · rw [if_pos he] at h
      obtain rfl := Option.some.inj h
      rw [imInsert_cons, if_pos he, replaceFirst_cons, if_pos he]
    · rw [if_neg he] at h
      rw [imInsert_cons, if_neg he, ih h, replaceFirst_cons, if_neg he]

/-- A key that is absent and differs from the appended key is not found. -/
theorem imFindIdx_append_none (m : RefDict) (k t : List Nat) (v : Nat)
    (h : lookupRef m k = none) (hkt : k ≠ t) :
    imFindIdx (m ++ [(t, v)]) k = none := by
  induction m with
  | nil =>
    rw [List.nil_append, imFindIdx_cons, if_neg (fun hh => hkt hh.symm), imFindIdx_nil]
    rfl
  | cons e rest ih =>
    obtain ⟨a, b⟩ := e
    rw [lookupRef_cons] at h
    by_cases he : a = k
    · rw [if_pos he] at h; exact absurd h (by simp)
    · rw [if_neg he] at h
      rw [List.cons_append, imFindIdx_cons, if_neg he, ih h]
      rfl

/-- A present key is found after an append. -/
theorem imFindIdx_append_isSome (m : RefDict) (k : List Nat)
    (last : List Nat × Nat) (v0 : Nat) (h : lookupRef m k = some v0) :
    ∃ i, imFindIdx (m ++ [last]) k = some i := by
  induction m with
  | nil => rw [lookupRef_nil] at h; exact absurd h (by simp)
  | cons e rest ih =>
    obtain ⟨a, b⟩ := e
    rw [lookupRef_cons] at h
    by_cases he : a = k
    · exact ⟨0, by rw [List.cons_append, imFindIdx_cons, if_pos he]⟩
    · rw [if_neg he] at h
      obtain ⟨i, hi⟩ := ih h
      refine ⟨i + 1, ?_⟩
      rw [List.cons_append, imFindIdx_cons, if_neg he, hi]
      rfl

/-- swap_remove of an absent key leaves the appended dictionary alone. -/
theorem imSwapRemove_append_absent (m : RefDict) (k t : List Nat) (v : Nat)
    (h : lookupRef m k = none) (hkt : k ≠ t) :
    imSwapRemove (m ++ [(t, v)]) k = m ++ [(t, v)] := by
  unfold imSwapRemove
  rw [imFindIdx_append_none m k t v h hkt]

/-- swap_remove of a present key on an appended dictionary replaces the
key's entry by the appended one and drops the appended slot. -/
theorem imSwapRemove_append_present (m : RefDict) (k : List Nat)
    (last : List Nat × Nat) (v0 : Nat) (h : lookupRef m k = some v0) :
    imSwapRemove (m ++ [last]) k = replaceFirst m k last := by
  induction m with
  | nil => rw [lookupRef_nil] at h; exact absurd h (by simp)
  | cons e rest ih =>
    obtain ⟨a, b⟩ := e
    rw [lookupRef_cons] at h
    by_cases he : a = k
    · have hfi : imFindIdx (((a, b) :: rest) ++ [last]) k = some 0 := by
        rw [List.cons_append, imFindIdx_cons, if_pos he]
      unfold imSwapRemove
      rw [hfi, List.getLast?_concat]
      show (last :: (rest ++ [last])).dropLast = replaceFirst ((a, b) :: rest) k last
      rw [show last :: (rest ++ [last]) = (last :: rest) ++ [last]
        from (List.cons_append _ _ _).symm]
      rw [List.dropLast_concat, replaceFirst_cons, if_pos he]
    · rw [if_neg he] at h
      obtain ⟨i, hi⟩ := imFindIdx_append_isSome rest k last v0 h
      have hfi : imFindIdx (((a, b) :: rest) ++ [last]) k = some (i + 1) := by
        rw [List.cons_append, imFindIdx_cons, if_neg he, hi]
        rfl
      unfold imSwapRemove
      rw [hfi, List.getLast?_concat]
      show ((a, b) :: (rest ++ [last]).set i last).dropLast
        = replaceFirst ((a, b) :: rest) k last
      have hnz : (rest ++ [last]).set i last ≠ [] := by
        intro hz
        have hlz := congrArg List.length hz
        rw [List.length_set, List.length_append] at hlz
        simp at hlz
      obtain ⟨y, ys, hyys⟩ := List.exists_cons_of_ne_nil hnz
      rw [hyys, List.dropLast_cons₂, ← hyys]
      have hrec : ((rest ++ [last]).set i last).dropLast = replaceFirst rest k last := by
        have h2 := ih h
        unfold imSwapRemove at h2
        rw [hi, List.getLast?_concat] at h2
        exact h2
      rw [hrec, replaceFirst_cons, if_neg he]

theorem lookupRef_none_of_not_mem (m : RefDict) (k : List Nat)
    (h : k ∉ m.map Prod.fst) : lookupRef m k = none := by
  induction m with
  | nil => rfl
  | cons e rest ih =>
    obtain ⟨a, b⟩ := e
    rw [List.map_cons, List.mem_cons] at h
    push_neg at h
    rw [lookupRef_cons, if_neg (fun hh => h.1 hh.symm)]
    exact ih h.2

/-- Looking up the replaced key after its entry got a different key, under
unique keys, finds nothing. -/
theorem replaceFirst_lookup_gone (m : RefDict) (k t : List Nat) (w v0 : Nat)
    (hnd : (m.map Prod.fst).Nodup) (h : lookupRef m k = some v0) (htk : t ≠ k) :
    lookupRef (replaceFirst m k (t, w)) k = none := by
  induction m with
  | nil => rw [lookupRef_nil] at h; exact absurd h (by simp)
  | cons e rest ih =>
    obtain ⟨a, b⟩ := e
    rw [List.map_cons, List.nodup_cons] at hnd
    rw [lookupRef_cons] at h
    by_cases he : a = k
    · rw [replaceFirst_cons, if_pos he, lookupRef_cons, if_neg htk]
      exact lookupRef_none_of_not_mem rest k (he ▸ hnd.1)
    · rw [if_neg he] at h
      rw [replaceFirst_cons, if_neg he, lookupRef_cons, if_neg he]
      exact ih hnd.2 h

/-- Looking up the new key of the replacing entry, when that key was
absent, yields the new value. -/
theorem replaceFirst_lookup_new (m : RefDict) (k t : List Nat) (w v0 : Nat)
    (ht : lookupRef m t = none) (h : lookupRef m k = some v0) :
    lookupRef (replaceFirst m k (t, w)) t = some w := by
  induction m with
  | nil => rw [lookupRef_nil] at h; exact absurd h (by simp)
  | cons e rest ih =>
    obtain ⟨a, b⟩ := e
    rw [lookupRef_cons] at h
    rw [lookupRef_cons] at ht
    by_cases hat : a = t
    · rw [if_pos hat] at ht; exact absurd ht (by simp)
    · rw [if_neg hat] at ht
      by_cases he : a = k
      · rw [replaceFirst_cons, if_pos he, lookupRef_cons, if_pos rfl]
      · rw [if_neg he] at h
        rw [replaceFirst_cons, if_neg he, lookupRef_cons, if_neg hat]
        exact ih ht h

/-- Replacing a present key by the same key with a new value makes lookup
of that key find the new value. -/
theorem replaceFirst_lookup_self (m : RefDict) (k : List Nat) (w v0 : Nat)
    (h : lookupRef m k = some v0) :
    lookupRef (replaceFirst m k (k, w)) k = some w := by
  induction m with
  | nil => rw [lookupRef_nil] at h; exact absurd h (by simp)
  | cons e rest ih =>
    obtain ⟨a, b⟩ := e
    rw [lookupRef_cons] at h
    by_cases he : a = k
    · rw [replaceFirst_cons, if_pos he, lookupRef_cons, if_pos rfl]
    · rw [if_neg he] at h
      rw [replaceFirst_cons, if_neg he, lookupRef_cons, if_neg he]
      exact ih h

/-- Replacing a key by itself leaves every other key's lookup unchanged. -/
theorem replaceFirst_lookup_other (m : RefDict) (k : List Nat) (w : Nat)
    (k2 : List Nat) (hk2 : k2 ≠ k) :
    lookupRef (replaceFirst m k (k, w)) k2 = lookupRef m k2 := by
  induction m with
  | nil => rfl
  | cons e rest ih =>
    obtain ⟨a, b⟩ := e
    by_cases he : a = k
    · rw [replaceFirst_cons, if_pos he, lookupRef_cons, lookupRef_cons,
        if_neg (fun hh => hk2 hh.symm), if_neg (fun hh => hk2 (he.symm.trans hh).symm)]
    · rw [replaceFirst_cons, if_neg he, lookupRef_cons, lookupRef_cons]
      by_cases ha2 : a = k2
      · rw [if_pos ha2, if_pos ha2]
      · rw [if_neg ha2, if_neg ha2, ih]

theorem lookupRef_concat_self (m : RefDict) (t : List Nat) (v : Nat)
    (h : lookupRef m t = none) : lookupRef (m ++ [(t, v)]) t = some v := by
  induction m with
  | nil => rw [List.nil_append, lookupRef_cons, if_pos rfl]
  | cons e rest ih =>
    obtain ⟨a, b⟩ := e
    rw [lookupRef_cons] at h
    by_cases he : a = t
    · rw [if_pos he] at h; exact absurd h (by simp)
    · rw [if_neg he] at h
      rw [List.cons_append, lookupRef_cons, if_neg he]
      exact ih h

theorem lookupRef_concat_other (m : RefDict) (k t : List Nat) (v : Nat)
    (hkt : k ≠ t) : lookupRef (m ++ [(t, v)]) k = lookupRef m k := by
  induction m with
  | nil =>
    rw [List.nil_append, lookupRef_cons, if_neg (fun hh => hkt hh.symm), lookupRef_nil]
  | cons e rest ih =>
    obtain ⟨a, b⟩ := e
    rw [List.cons_append, lookupRef_cons, lookupRef_cons]
    by_cases he : a = k
    · rw [if_pos he, if_pos he]
    · rw [if_neg he, if_neg he, ih]

/-- Claim C9 counterexample: with dictionary [(r, 10), (t, 7)], old name r
and a different target name t that is already present, adjust_header
updates t's entry to reflen but the old entry under r is NOT removed —
the removal only runs when the insert created a new entry. -/
theorem c9_counterexample :
    adjust_header [([0], 10), ([1], 7)] [0] [1] 5
      = Except.ok [([0], 10), ([1], 5)] ∧
    ([0] : List Nat) ≠ [1] ∧
    lookupRef [([0], 10), ([1], 5)] [0] = some 10 :=
  ⟨rfl, by decide, rfl⟩

/-- Claim C9 (amended): before any record is emitted, adjust_header sets
the entry under the target name to length reflen; the old name's entry is
removed only when the target name was not already present (the insert
appended a new entry); when the target name already exists — even when it
differs from the old name — its value is updated in place and every other
entry, the old name's included, is left untouched. -/
theorem c9_header_adjust (dict : RefDict) (refname target : List Nat) (reflen : Nat)
    (hpos : 0 < reflen) (hnd : (dict.map Prod.fst).Nodup) :
    ∃ d, adjust_header dict refname target reflen = Except.ok d ∧
      (lookupRef dict target = none → refname ≠ target →
        lookupRef d target = some reflen ∧ lookupRef d refname = none) ∧
      (∀ v0, lookupRef dict target = some v0 →
        lookupRef d target = some reflen ∧
        ∀ k, k ≠ target → lookupRef d k = lookupRef dict k) := by
  unfold adjust_header
  rw [if_neg (by omega : ¬ reflen = 0)]
  cases htgt : lookupRef dict target with
  | none =>
    have hins := imInsert_not_mem dict target reflen htgt
    have hcond : (imInsert dict target reflen).2.isNone = true := by rw [hins]; rfl
    rw [if_pos hcond, hins]
    refine ⟨imSwapRemove (dict ++ [(target, reflen)]) refname, rfl, ?_, ?_⟩
    · intro _ hne
      cases hrf : lookupRef dict refname with
      | none =>
        rw [imSwapRemove_append_absent dict refname target reflen hrf hne]
        exact ⟨lookupRef_concat_self dict target reflen htgt,
          by rw [lookupRef_concat_other dict refname target reflen hne]; exact hrf⟩
      | some v1 =>
        rw [imSwapRemove_append_present dict refname (target, reflen) v1 hrf]
        exact ⟨replaceFirst_lookup_new dict refname target reflen v1 htgt hrf,
          replaceFirst_lookup_gone dict refname target reflen v1 hnd hrf
            (fun hh => hne hh.symm)⟩
    · intro v0 hv0
      exact absurd hv0 (by simp)
  | some v0 =>
    have hins := imInsert_mem dict target reflen v0 htgt
    have hcond : ¬ (imInsert dict target reflen).2.isNone = true := by
      rw [hins]; simp
    rw [if_neg hcond, hins]
    refine ⟨replaceFirst dict target (target, reflen), rfl, ?_, ?_⟩
    · intro hcontra _
      exact absurd hcontra (by simp)
    · intro v1 _
      exact ⟨replaceFirst_lookup_self dict target reflen v0 htgt,
        fun k hk => replaceFirst_lookup_other dict target reflen k hk⟩

theorem c9_witness :
    ∃ d, adjust_header [([0], 4)] [0] [1] 7 = Except.ok d ∧
      (lookupRef [([0], 4)] [1] = none → ([0] : List Nat) ≠ [1] →
        lookupRef d [1] = some 7 ∧ lookupRef d [0] = none) ∧
      (∀ v0, lookupRef [([0], 4)] [1] = some v0 →
        lookupRef d [1] = some 7 ∧
        ∀ k, k ≠ [1] → lookupRef d k = lookupRef [([0], 4)] k) :=
  c9_header_adjust [([0], 4)] [0] [1] 7 (by decide) (by decide)

end Mt
